import Mathlib

/-!
Verification development for the uiua primitive execution engine.

The development shallowly embeds the primitive dispatcher and the name
resolver of `src/primitive/mod.rs`, together with the older engine of
`src/primitive.rs` (the `inverse` table and the explicit `Try` recovery).

Code that belongs to this repository but is not present under `src/`
(the catalogue tables of `primitive/defs.rs`, the `Uiua` runtime methods,
the `Value` algorithm module, and the external `rand` crate) is modelled
from the specification; every such definition carries a doc comment that
starts with `Modelled from the spec:`.
-/

/-- Byte length of a character in UTF-8, as Rust `char::len_utf8`. -/
def charUtf8Size (c : Char) : Nat :=
  if c.val < 0x80 then 1
  else if c.val < 0x800 then 2
  else if c.val < 0x10000 then 3
  else 4

/-- Byte length of a string represented as a list of characters,
as Rust `str::len`. -/
def utf8Len (s : List Char) : Nat :=
  (s.map charUtf8Size).sum

/-- Rust `Vec::truncate n` on a stack whose top is the head of the list:
keep the bottom `n` elements (the last `n` of the list). -/
def truncateTo (n : Nat) (l : List α) : List α :=
  l.drop (l.length - n)

/-- Modelled from the spec: the runtime value.  The real `Value` is a
rank-N array (number, character, boxed value, …); the claims settled here
depend only on scalar numbers, characters and boxes, so the array
structure is not modelled.  Numbers are represented exactly as rationals
rather than as IEEE-754 doubles. -/
inductive Value where
  | num (q : ℚ)
  | chr (c : Char)
  | box (v : Value)
deriving DecidableEq, Repr

/-- Modelled from the spec: `Value::as_nat` (the `Value` methods live in
the missing algorithm module).  A value reads as a natural number exactly
when it is a scalar number that is a non-negative integer. -/
def Value.asNat : Value → Option Nat
  | .num q => if q.den = 1 ∧ 0 ≤ q.num then some q.num.toNat else none
  | _ => none

/-- Modelled from the spec: `Value::type_id`; the element-kind id as a
small natural, one fixed id per kind. -/
def Value.typeId : Value → Nat
  | .num _ => 0
  | .chr _ => 2
  | .box _ => 3

/-- The runtime error, as the claims need it: a generic message error
(`env.error`, whose constructor is not under `src/`), the explicit
`UiuaError::Throw` (its `inputs` snapshot is dropped), and the
stack-underflow failure of `pop`. -/
inductive Err where
  | underflow
  | run (msg : String)
  | throw (msg : Value) (span : Nat)
  | missing (what : String)
deriving DecidableEq, Repr

/-- Modelled from the spec: a function value, as the dispatcher sees it:
a `FunctionId`, a declared signature, and a body.  The body is the
stack effect of `env.call` on the value stack: it returns the new stack
together with an optional error; on error the mutated stack persists,
as with `&mut Uiua`. -/
structure Fn where
  id : Nat
  args : Nat
  outputs : Nat
  body : List Value → List Value × Option Err

/-- Modelled from the spec: the runtime state visible to the dispatcher.
The head of each list is the top of the corresponding stack.  The
process-global `Tag` counter, the thread-local `Rand` state and the
monotonic clock are carried as fields so that the embedding stays pure. -/
structure Env where
  stack : List Value
  antistack : List Value
  functionStack : List Fn
  memo : List ((Nat × List Value) × List Value)
  fill : Option Value
  rngCounter : Nat
  nextTag : Nat
  now : ℚ
  span : Nat

/-- Modelled from the spec: `env.pop`; fails on an empty stack. -/
def Env.pop (env : Env) : Except Err (Value × Env) :=
  match env.stack with
  | [] => .error .underflow
  | v :: rest => .ok (v, { env with stack := rest })

/-- Modelled from the spec: `env.push`. -/
def Env.push (v : Value) (env : Env) : Env :=
  { env with stack := v :: env.stack }

/-- Modelled from the spec: `env.pop_function`; functions live on their
own stack filled by the compiler. -/
def Env.popFunction (env : Env) : Except Err (Fn × Env) :=
  match env.functionStack with
  | [] => .error .underflow
  | f :: rest => .ok (f, { env with functionStack := rest })

/-- Pop `n` values; the first element of the returned list was the top. -/
def popN : Nat → List Value → Option (List Value × List Value)
  | 0, s => some ([], s)
  | n + 1, [] => (fun _ => none) n
  | n + 1, v :: s => (popN n s).map (fun p => (v :: p.1, p.2))

/-- Modelled from the spec: `env.clone_stack_top n` clones the top `n`
values without popping, listed bottom-to-top so that pushing them back in
list order restores the original order. -/
def cloneStackTop (n : Nat) (stack : List Value) : List Value :=
  (stack.take n).reverse

/-- Push a list of values in list order (the last pushed ends on top). -/
def pushList (vs : List Value) (stack : List Value) : List Value :=
  vs.foldl (fun acc v => v :: acc) stack

/-- Memo-table lookup under the key `(function id, argument tuple)`. -/
def memoLookup (memo : List ((Nat × List Value) × List Value))
    (id : Nat) (args : List Value) : Option (List Value) :=
  match memo with
  | [] => none
  | (k, outs) :: rest =>
      if k = (id, args) then some outs else memoLookup rest id args

/-- Memo-table insertion. -/
def memoInsert (memo : List ((Nat × List Value) × List Value))
    (id : Nat) (args : List Value) (outs : List Value) :
    List ((Nat × List Value) × List Value) :=
  ((id, args), outs) :: memo

/-- Modelled from the spec: the bundle of `Value` methods the dispatcher
delegates to; they live in the missing algorithm module, so `runPrim` is
parametric in them.  Each field has the pop/push protocol of its source
arm; the claims below hold for every choice of these kernels. -/
structure Kernels where
  eta : Value
  pi : Value
  tau : Value
  inf : Value
  not : Value → Except Err Value
  neg : Value → Except Err Value
  abs : Value → Except Err Value
  sign : Value → Except Err Value
  sqrt : Value → Except Err Value
  sin : Value → Except Err Value
  floor : Value → Except Err Value
  ceil : Value → Except Err Value
  round : Value → Except Err Value
  isEq : Value → Value → Except Err Value
  isNe : Value → Value → Except Err Value
  isLt : Value → Value → Except Err Value
  isLe : Value → Value → Except Err Value
  isGt : Value → Value → Except Err Value
  isGe : Value → Value → Except Err Value
  add : Value → Value → Except Err Value
  sub : Value → Value → Except Err Value
  mul : Value → Value → Except Err Value
  div : Value → Value → Except Err Value
  modulus : Value → Value → Except Err Value
  pow : Value → Value → Except Err Value
  log : Value → Value → Except Err Value
  min : Value → Value → Except Err Value
  max : Value → Value → Except Err Value
  atan2 : Value → Value → Except Err Value
  complex : Value → Value → Except Err Value
  join : Value → Value → Except Err Value
  take : Value → Value → Except Err Value
  drop : Value → Value → Except Err Value
  couple : Value → Value → Except Err Value
  pick : Value → Value → Except Err Value
  keep : Value → Value → Except Err Value
  rotate : Value → Value → Except Err Value
  select : Value → Value → Except Err Value
  windows : Value → Value → Except Err Value
  member : Value → Value → Except Err Value
  find : Value → Value → Except Err Value
  indexOf : Value → Value → Except Err Value
  rise : Value → Except Err Value
  fall : Value → Except Err Value
  wher : Value → Except Err Value
  parseNum : Value → Except Err Value
  utf8 : Value → Except Err Value
  range : Value → Except Err Value
  bits : Value → Except Err Value
  first : Value → Except Err Value
  transpose : Value → Value
  reverse : Value → Value
  deshape : Value → Value
  fix : Value → Value
  deduplicate : Value → Value
  classify : Value → Value
  unique : Value → Value
  rowCount : Value → Value
  shapeOf : Value → Value
  reshape : Value → Value → Except Err Value
  rerank : Value → Value → Except Err Value
  insert : Value → Value → Value → Except Err Value
  hasKey : Value → Value → Except Err Value
  get : Value → Value → Except Err Value
  remove : Value → Value → Except Err Value
  mapOp : Value → Value → Except Err Value
  random : Nat → Value
  shuffleRows : Nat → Value → Value
  errValue : Err → Value

/-- Modelled from the spec: `env.monadic_env f`: pop one value, apply the
fallible kernel, push the result. -/
def monadicEnv (f : Value → Except Err Value) (env : Env) : Except Err Env := do
  let (v, env) ← env.pop
  let r ← f v
  .ok (env.push r)

/-- Modelled from the spec: `env.monadic_ref_env f`, same protocol as
`monadic_env` (reference vs. owned argument is invisible here). -/
def monadicRefEnv (f : Value → Except Err Value) (env : Env) : Except Err Env := do
  let (v, env) ← env.pop
  let r ← f v
  .ok (env.push r)

/-- Modelled from the spec: `env.monadic_ref f` for an infallible kernel. -/
def monadicRef (f : Value → Value) (env : Env) : Except Err Env := do
  let (v, env) ← env.pop
  .ok (env.push (f v))

/-- Modelled from the spec: `env.monadic_mut f`, mutate the top value in
place. -/
def monadicMut (f : Value → Value) (env : Env) : Except Err Env := do
  let (v, env) ← env.pop
  .ok (env.push (f v))

/-- Modelled from the spec: `env.dyadic_oo_00_env f`: pop two values,
apply the fallible kernel, push the result. -/
def dyadicOO00Env (f : Value → Value → Except Err Value) (env : Env) : Except Err Env := do
  let (a, env) ← env.pop
  let (b, env) ← env.pop
  let r ← f a b
  .ok (env.push r)

/-- Modelled from the spec: `env.dyadic_oo_env f`, same protocol. -/
def dyadicOOEnv (f : Value → Value → Except Err Value) (env : Env) : Except Err Env := do
  let (a, env) ← env.pop
  let (b, env) ← env.pop
  let r ← f a b
  .ok (env.push r)

/-- Modelled from the spec: `env.dyadic_ro_env f`, same protocol. -/
def dyadicROEnv (f : Value → Value → Except Err Value) (env : Env) : Except Err Env := do
  let (a, env) ← env.pop
  let (b, env) ← env.pop
  let r ← f a b
  .ok (env.push r)

/-- Modelled from the spec: `env.dyadic_rr_env f`, same protocol. -/
def dyadicRREnv (f : Value → Value → Except Err Value) (env : Env) : Except Err Env := do
  let (a, env) ← env.pop
  let (b, env) ← env.pop
  let r ← f a b
  .ok (env.push r)

/-- Modelled from the spec: `env.dyadic_rr f` for an infallible kernel. -/
def dyadicRR (f : Value → Value → Value) (env : Env) : Except Err Env := do
  let (a, env) ← env.pop
  let (b, env) ← env.pop
  .ok (env.push (f a b))

/-- Modelled from the spec: `env.call f`: run the function body against
the value stack; on success the new stack is installed, on failure the
error propagates (the `Except` model discards the failed state, which the
claims below never inspect through this helper). -/
def callFn (f : Fn) (env : Env) : Except Err Env :=
  match f.body env.stack with
  | (s, none) => .ok { env with stack := s }
  | (_, some e) => .error e

/-- Wrap to 64 bits, as every `u64` operation of the generator does. -/
def w64 (x : Nat) : Nat := x % 2 ^ 64

/-- Modelled from the spec: one step of SplitMix64, the seeding expander
used by `SmallRng::seed_from_u64` in the external `rand` crate; returns
the output word and the advanced state. -/
def splitMixNext (state : Nat) : Nat × Nat :=
  let s := w64 (state + 0x9e3779b97f4a7c15)
  let z := w64 ((s ^^^ (s >>> 30)) * 0xbf58476d1ce4e5b9)
  let z := w64 ((z ^^^ (z >>> 27)) * 0x94d049bb133111eb)
  (z ^^^ (z >>> 31), s)

/-- Modelled from the spec: `SmallRng::seed_from_u64` expands the 64-bit
seed into the four state words of xoshiro256++. -/
def xoshiroFromSeed (seed : Nat) : Nat × Nat × Nat × Nat :=
  let (x0, st1) := splitMixNext seed
  let (x1, st2) := splitMixNext st1
  let (x2, st3) := splitMixNext st2
  let (x3, _) := splitMixNext st3
  (x0, x1, x2, x3)

/-- 64-bit left rotation. -/
def rotl64 (x k : Nat) : Nat := w64 ((x <<< k) ||| (x >>> (64 - k)))

/-- Modelled from the spec: `next_u64` of xoshiro256++, the `SmallRng`
engine of the external `rand` crate on 64-bit targets. -/
def xoshiroNext (s : Nat × Nat × Nat × Nat) : Nat × (Nat × Nat × Nat × Nat) :=
  let (s0, s1, s2, s3) := s
  let result := w64 (rotl64 (w64 (s0 + s3)) 23 + s0)
  let t := w64 (s1 <<< 17)
  let s2 := s2 ^^^ s0
  let s3 := s3 ^^^ s1
  let s1 := s1 ^^^ s2
  let s0 := s0 ^^^ s3
  let s2 := s2 ^^^ t
  let s3 := rotl64 s3 45
  (result, (s0, s1, s2, s3))

/-- Modelled from the spec: `f64::to_bits` of the seed number.  The
claims depend only on this being a fixed function of the numeric value,
so a concrete stand-in encoding is used (exact IEEE-754 bit patterns are
not representable over the rational value model). -/
def f64Bits (q : ℚ) : Nat := w64 (q.num.natAbs * 4294967296 + q.den)

/-- Modelled from the spec: `f64::from_bits`; a fixed stand-in function,
for the same reason as `f64Bits`. -/
def f64FromBits (n : Nat) : ℚ := (n : ℚ) / 2 ^ 64

/-- Modelled from the spec: the `[0,1)` double sampled by `rng.gen::<f64>()`
in the external `rand` crate: the top 53 bits of `next_u64`, scaled by
`2⁻⁵³`. -/
def standardF64 (u : Nat) : ℚ := ((u >>> 11 : Nat) : ℚ) / 2 ^ 53

/-- The primitive enumeration of `src/primitive/mod.rs` (the variant list
is read off the exhaustive dispatch match; the enum itself is declared in
the missing `defs.rs`).  `sys` abstracts the `Sys(SysOp)` variant by an
opaque op index. -/
inductive Primitive where
  | eta | pi | tau | infinity | identity
  | not | neg | abs | sign | sqrt | sin | floor | ceil | round
  | eq | ne | lt | le | gt | ge
  | add | sub | mul | div | mod | pow | log | min | max | atan | complex
  | match' | join | transpose | keep | take | drop | rotate | couple
  | rise | fall | pick | select | windows | wher | classify
  | deduplicate | unique | member | find | indexOf
  | box | parse | utf | range | reverse | deshape | fix | first
  | len | shape | bits
  | reduce | scan | fold | each | rows | table | cross | repeat | do'
  | group | partition
  | reshape | rerank
  | dup | flip | over | pop
  | dip | gap | un | under | bind
  | unpack | content | fill
  | both | fork | cascade | bracket
  | all | this | recur
  | try' | assert
  | rand | gen | deal | tag | type'
  | memo | comptime
  | spawn | wait | send | recv | tryRecv
  | now
  | rectify | setInverse | setUnder
  | insert | has | get | remove | map
  | trace | stack | dump | regex
  | sys (op : Nat)

/-- Modelled from the spec: the signature table `(args, outputs)` of the
missing `defs.rs` catalogue.  Entries are given only for primitives whose
dispatch arm is self-contained in `src/primitive/mod.rs`; modifiers and
primitives whose behaviour delegates to missing modules are treated as
context-dependent (`none`), matching the spec's "None means variadic or
context-dependent". -/
def Primitive.signature : Primitive → Option (Nat × Nat)
  | .eta | .pi | .tau | .infinity | .rand | .tag | .now => some (0, 1)
  | .identity => some (1, 1)
  | .not | .neg | .abs | .sign | .sqrt | .sin | .floor | .ceil | .round => some (1, 1)
  | .eq | .ne | .lt | .le | .gt | .ge => some (2, 1)
  | .add | .sub | .mul | .div | .mod | .pow | .log | .min | .max
  | .atan | .complex => some (2, 1)
  | .match' | .join | .keep | .take | .drop | .rotate | .couple
  | .pick | .select | .windows | .member | .find | .indexOf => some (2, 1)
  | .transpose | .rise | .fall | .wher | .classify | .deduplicate
  | .unique => some (1, 1)
  | .box | .parse | .utf | .range | .reverse | .deshape | .fix
  | .first | .len | .shape | .bits => some (1, 1)
  | .reshape | .rerank => some (2, 1)
  | .dup => some (1, 2)
  | .flip => some (2, 2)
  | .over => some (2, 3)
  | .pop => some (1, 0)
  | .assert => some (2, 0)
  | .gen => some (1, 2)
  | .deal => some (2, 1)
  | .type' => some (1, 1)
  | .insert => some (3, 1)
  | .has | .get | .remove | .map => some (2, 1)
  | .trace => some (1, 1)
  | _ => none

/-- The `Primitive::Box` arm: wrap the top value. -/
def boxArm (env : Env) : Except Err Env := do
  let (v, env) ← env.pop
  .ok (env.push (.box v))

/-- The `Primitive::Reshape` and `Primitive::Rerank` arms: pop the shape
or rank, pop the array, apply the fallible method, push the result. -/
def reshapeLikeArm (k : Value → Value → Except Err Value) (env : Env) : Except Err Env := do
  let (shp, env) ← env.pop
  let (arr, env) ← env.pop
  let r ← k arr shp
  .ok (env.push r)

/-- The `Primitive::Dup` arm. -/
def dupArm (env : Env) : Except Err Env := do
  let (x, env) ← env.pop
  .ok ((env.push x).push x)

/-- The `Primitive::Flip` arm. -/
def flipArm (env : Env) : Except Err Env := do
  let (a, env) ← env.pop
  let (b, env) ← env.pop
  .ok ((env.push a).push b)

/-- The `Primitive::Over` arm. -/
def overArm (env : Env) : Except Err Env := do
  let (a, env) ← env.pop
  let (b, env) ← env.pop
  .ok (((env.push b).push a).push b)

/-- The `Primitive::Pop` arm. -/
def popArm (env : Env) : Except Err Env := do
  let (_, env) ← env.pop
  .ok env

/-- The `Primitive::Assert` arm: pop the message, pop the condition, and
throw unless the condition reads as the natural `1`. -/
def assertArm (env : Env) : Except Err Env := do
  let (msg, env) ← env.pop
  let (cond, env) ← env.pop
  if cond.asNat = some 1 then
    .ok env
  else
    .error (.throw msg env.span)

/-- Read the popped `Gen` or `Deal` seed as a number. -/
def seedNum (m : String) : Value → Except Err ℚ
  | .num q => .ok q
  | _ => .error (.run m)

/-- The `Primitive::Gen` arm: seed a fresh `SmallRng` from the bits of
the popped seed, sample a `[0,1)` double and a next seed, push both. -/
def genArm (env : Env) : Except Err Env := do
  let (seed, env) ← env.pop
  let q ← seedNum (r"Gen expects a number") seed
  let st0 := xoshiroFromSeed (f64Bits q)
  let (u1, st1) := xoshiroNext st0
  let (u2, _) := xoshiroNext st1
  .ok ((env.push (.num (standardF64 u1))).push (.num (f64FromBits u2)))

/-- The `Primitive::Deal` arm: pop the seed and the array, shuffle the
rows (the shuffle itself is a kernel: the row structure is missing). -/
def dealArm (K : Kernels) (env : Env) : Except Err Env := do
  let (seed, env) ← env.pop
  let q ← seedNum (r"Deal expects a number") seed
  let (arr, env) ← env.pop
  .ok (env.push (K.shuffleRows (f64Bits q) arr))

/-- The `Primitive::Tag` arm: push the process-wide counter, advance it. -/
def tagArm (env : Env) : Except Err Env :=
  let env' := env.push (.num (env.nextTag : ℚ))
  .ok { env' with nextTag := env.nextTag + 1 }

/-- The `Primitive::Type` arm. -/
def typeArm (env : Env) : Except Err Env := do
  let (v, env) ← env.pop
  .ok (env.push (.num (v.typeId : ℚ)))

/-- The `Primitive::Rand` arm: push a value from the thread-local RNG. -/
def randArm (K : Kernels) (env : Env) : Except Err Env :=
  let env' := env.push (K.random env.rngCounter)
  .ok { env' with rngCounter := env.rngCounter + 1 }

/-- The `Primitive::Now` arm. -/
def nowArm (env : Env) : Except Err Env :=
  .ok (env.push (.num env.now))

/-- The `trace` helper (non-inverse direction): pop the value, print it
to the backend (dropped by the model), push it back. -/
def traceArm (env : Env) : Except Err Env := do
  let (v, env) ← env.pop
  .ok (env.push v)

/-- The `Primitive::Insert` arm. -/
def insertArm (K : Kernels) (env : Env) : Except Err Env := do
  let (key, env) ← env.pop
  let (val, env) ← env.pop
  let (m, env) ← env.pop
  let r ← K.insert key val m
  .ok (env.push r)

/-- The `Primitive::Has`, `Get`, `Remove` and `Map` arms: pop the key (or
keys), pop the map (or values), apply the kernel, push the result. -/
def mapLikeArm (k : Value → Value → Except Err Value) (env : Env) : Except Err Env := do
  let (a, env) ← env.pop
  let (b, env) ← env.pop
  let r ← k a b
  .ok (env.push r)

/-- Source `Value::unbox`: strip one box level, in place. -/
def unboxValue : Value → Value
  | .box v => v
  | v => v

/-- The `Primitive::Content` arm: unbox the top `args` values in place,
then call the function. -/
def contentArm (env : Env) : Except Err Env := do
  let (f, env) ← env.popFunction
  let s := (env.stack.take f.args).map unboxValue ++ env.stack.drop f.args
  callFn f { env with stack := s }

/-- The `Primitive::Fill` arm: call the fill function, pop the fill
value, install it for the duration of the call of `f`, restore after. -/
def fillArm (env : Env) : Except Err Env := do
  let (fillFn, env) ← env.popFunction
  let (f, env) ← env.popFunction
  let env ← callFn fillFn env
  let (fv, env) ← env.pop
  let saved := env.fill
  let env ← callFn f { env with fill := some fv }
  .ok { env with fill := saved }

/-- The `Primitive::Unpack` arm (the `with_pack` flag is not modelled). -/
def unpackArm (env : Env) : Except Err Env := do
  let (f, env) ← env.popFunction
  callFn f env

/-- The `Primitive::Rectify` arm: call the function. -/
def rectifyArm (env : Env) : Except Err Env := do
  let (f, env) ← env.popFunction
  callFn f env

/-- The `Primitive::SetInverse` arm: discard the inverse, call `f`. -/
def setInverseArm (env : Env) : Except Err Env := do
  let (f, env) ← env.popFunction
  let (_inv, env) ← env.popFunction
  callFn f env

/-- The `Primitive::SetUnder` arm: discard both halves, call `f`. -/
def setUnderArm (env : Env) : Except Err Env := do
  let (f, env) ← env.popFunction
  let (_before, env) ← env.popFunction
  let (_after, env) ← env.popFunction
  callFn f env

/-- The `Primitive::Try` arm of `mod.rs`: back up the top `args(f)`
values, call the body with a clean-stack guard (`call_clean_stack` is
modelled from the spec: it truncates both stacks back to their pre-call
sizes on failure), and on failure push the error value, re-push the
backup, and call the handler. -/
def tryArm (K : Kernels) (env : Env) : Except Err Env := do
  let (f, env) ← env.popFunction
  let (handler, env) ← env.popFunction
  let backup := cloneStackTop f.args env.stack
  let size := env.stack.length
  let antisize := env.antistack.length
  match f.body env.stack with
  | (s, none) => .ok { env with stack := s }
  | (s, some e) =>
      let env := { env with
        stack := truncateTo size s,
        antistack := truncateTo antisize env.antistack }
      let env := env.push (K.errValue e)
      let env := { env with stack := pushList backup env.stack }
      callFn handler env

/-- The `Primitive::Memo` arm, instrumented with a flag recording whether
the function body was actually entered (the claims speak about
re-entry).  Pop the function and its arguments, look the tuple up under
the function id; on a hit push the stored outputs without calling; on a
miss restore the arguments, call, and store a clone of the top
`outputs(f)` values. -/
def runMemoI (env : Env) : Except Err (Env × Bool) := do
  let (f, env) ← env.popFunction
  match popN f.args env.stack with
  | none => .error .underflow
  | some (args, rest) =>
    let env := { env with stack := rest }
    match memoLookup env.memo f.id args with
    | some outs => .ok ({ env with stack := pushList outs env.stack }, false)
    | none =>
        let env := { env with stack := pushList args.reverse env.stack }
        match f.body env.stack with
        | (_, some e) => .error e
        | (s, none) =>
            let env := { env with stack := s }
            let outputs := cloneStackTop f.outputs env.stack
            .ok ({ env with memo := memoInsert env.memo f.id args outputs }, true)

/-- The message of the `env.error` call in the given dispatch arm. -/
def dipMsg : String := r"Dip was not inlined. This is a bug in the interpreter"

/-- The message of the `Gap` arm. -/
def gapMsg : String := r"Gap was not inlined. This is a bug in the interpreter"

/-- The message of the `Un` arm (the source names it `Invert`). -/
def unMsg : String := r"Invert was not inlined. This is a bug in the interpreter"

/-- The message of the `Under` arm. -/
def underMsg : String := r"Under was not inlined. This is a bug in the interpreter"

/-- The message of the `Bind` arm. -/
def bindMsg : String := r"Bind was not inlined. This is a bug in the interpreter"

/-- The message of the `Both` arm. -/
def bothMsg : String := r"Both was not inlined. This is a bug in the interpreter"

/-- The message of the `Fork` arm. -/
def forkMsg : String := r"Fork was not inlined. This is a bug in the interpreter"

/-- The message of the `Cascade` arm. -/
def cascadeMsg : String := r"Cascade was not inlined. This is a bug in the interpreter"

/-- The message of the `Bracket` arm. -/
def bracketMsg : String := r"Bracket was not inlined. This is a bug in the interpreter"

/-- The message of the `Comptime` arm. -/
def comptimeMsg : String := r"Comptime was not inlined. This is a bug in the interpreter"

/-- Embedding of `Primitive::run` of `src/primitive/mod.rs`.  Arms whose behaviour is
entirely determined by the dispatcher source (possibly through the
kernel bundle `K`) are embedded faithfully; arms that delegate to repo
modules that are not under `src/` (the algorithm loops, recursion,
concurrency and system backends) are mapped to the distinguished
`Err.missing` and carry no signature in the modelled table. -/
def runPrim (K : Kernels) (p : Primitive) (env : Env) : Except Err Env :=
  match p with
  | .eta => .ok (env.push K.eta)
  | .pi => .ok (env.push K.pi)
  | .tau => .ok (env.push K.tau)
  | .infinity => .ok (env.push K.inf)
  | .identity => .ok env
  | .not => monadicEnv K.not env
  | .neg => monadicEnv K.neg env
  | .abs => monadicEnv K.abs env
  | .sign => monadicEnv K.sign env
  | .sqrt => monadicEnv K.sqrt env
  | .sin => monadicEnv K.sin env
  | .floor => monadicEnv K.floor env
  | .ceil => monadicEnv K.ceil env
  | .round => monadicEnv K.round env
  | .eq => dyadicOO00Env K.isEq env
  | .ne => dyadicOO00Env K.isNe env
  | .lt => dyadicOO00Env K.isLt env
  | .le => dyadicOO00Env K.isLe env
  | .gt => dyadicOO00Env K.isGt env
  | .ge => dyadicOO00Env K.isGe env
  | .add => dyadicOO00Env K.add env
  | .sub => dyadicOO00Env K.sub env
  | .mul => dyadicOO00Env K.mul env
  | .div => dyadicOO00Env K.div env
  | .mod => dyadicOO00Env K.modulus env
  | .pow => dyadicOO00Env K.pow env
  | .log => dyadicOO00Env K.log env
  | .min => dyadicOO00Env K.min env
  | .max => dyadicOO00Env K.max env
  | .atan => dyadicOO00Env K.atan2 env
  | .complex => dyadicOO00Env K.complex env
  | .match' => dyadicRR (fun a b => .num (if a = b then 1 else 0)) env
  | .join => dyadicOOEnv K.join env
  | .transpose => monadicMut K.transpose env
  | .keep => dyadicROEnv K.keep env
  | .take => dyadicOOEnv K.take env
  | .drop => dyadicOOEnv K.drop env
  | .rotate => dyadicROEnv K.rotate env
  | .couple => dyadicOOEnv K.couple env
  | .rise => monadicRefEnv K.rise env
  | .fall => monadicRefEnv K.fall env
  | .pick => dyadicOOEnv K.pick env
  | .select => dyadicRREnv K.select env
  | .windows => dyadicRREnv K.windows env
  | .wher => monadicRefEnv K.wher env
  | .classify => monadicRef K.classify env
  | .deduplicate => monadicMut K.deduplicate env
  | .unique => monadicRef K.unique env
  | .member => dyadicRREnv K.member env
  | .find => dyadicRREnv K.find env
  | .indexOf => dyadicRREnv K.indexOf env
  | .box => boxArm env
  | .parse => monadicRefEnv K.parseNum env
  | .utf => monadicRefEnv K.utf8 env
  | .range => monadicRefEnv K.range env
  | .reverse => monadicMut K.reverse env
  | .deshape => monadicMut K.deshape env
  | .fix => monadicMut K.fix env
  | .first => monadicEnv K.first env
  | .len => monadicRef K.rowCount env
  | .shape => monadicRef K.shapeOf env
  | .bits => monadicRefEnv K.bits env
  | .reduce => .error (.missing (r"reduce::reduce"))
  | .scan => .error (.missing (r"reduce::scan"))
  | .fold => .error (.missing (r"reduce::fold"))
  | .each => .error (.missing (r"zip::each"))
  | .rows => .error (.missing (r"zip::rows"))
  | .table => .error (.missing (r"table::table"))
  | .cross => .error (.missing (r"table::table"))
  | .repeat => .error (.missing (r"loops::repeat"))
  | .do' => .error (.missing (r"loops::do"))
  | .group => .error (.missing (r"loops::group"))
  | .partition => .error (.missing (r"loops::partition"))
  | .reshape => reshapeLikeArm K.reshape env
  | .rerank => reshapeLikeArm K.rerank env
  | .dup => dupArm env
  | .flip => flipArm env
  | .over => overArm env
  | .pop => popArm env
  | .dip => .error (.run dipMsg)
  | .gap => .error (.run gapMsg)
  | .un => .error (.run unMsg)
  | .under => .error (.run underMsg)
  | .bind => .error (.run bindMsg)
  | .unpack => unpackArm env
  | .content => contentArm env
  | .fill => fillArm env
  | .both => .error (.run bothMsg)
  | .fork => .error (.run forkMsg)
  | .cascade => .error (.run cascadeMsg)
  | .bracket => .error (.run bracketMsg)
  | .all => .error (.missing (r"algorithm::all"))
  | .this => .error (.missing (r"env.call_with_this"))
  | .recur => .error (.missing (r"env.recur"))
  | .try' => tryArm K env
  | .assert => assertArm env
  | .rand => randArm K env
  | .gen => genArm env
  | .deal => dealArm K env
  | .tag => tagArm env
  | .type' => typeArm env
  | .memo => (runMemoI env).map (fun p => p.1)
  | .comptime => .error (.run comptimeMsg)
  | .spawn => .error (.missing (r"env.spawn"))
  | .wait => .error (.missing (r"env.wait"))
  | .send => .error (.missing (r"env.send"))
  | .recv => .error (.missing (r"env.recv"))
  | .tryRecv => .error (.missing (r"env.try_recv"))
  | .now => nowArm env
  | .rectify => rectifyArm env
  | .setInverse => setInverseArm env
  | .setUnder => setUnderArm env
  | .insert => insertArm K env
  | .has => mapLikeArm K.hasKey env
  | .get => mapLikeArm K.get env
  | .remove => mapLikeArm K.remove env
  | .map => mapLikeArm K.mapOp env
  | .trace => traceArm env
  | .stack => .ok env
  | .dump => .error (.missing (r"dump via env.call"))
  | .regex => .error (.missing (r"regex crate and fill context"))
  | .sys _ => .error (.missing (r"SysOp::run"))

/-- Modelled from the spec: the `text` name of each catalogued primitive
(the `PrimNames` tables live in the missing `defs.rs`).  Only the
primitives the spec names are modelled; the rest read as the empty name,
which never matches any query of length at least 2. -/
def nameOf : Primitive → List Char
  | .identity => (r"identity").toList
  | .gap => (r"gap").toList
  | .dip => (r"dip").toList
  | .fork => (r"fork").toList
  | .pop => (r"pop").toList
  | .pi => (r"pi").toList
  | .range => (r"range").toList
  | .transpose => (r"transpose").toList
  | .partition => (r"partition").toList
  | .reverse => (r"reverse").toList
  | .shape => (r"shape").toList
  | .match' => (r"match").toList
  | .pick => (r"pick").toList
  | .reshape => (r"reshape").toList
  | .classify => (r"classify").toList
  | .ge => (r"greater or equal").toList
  | .content => (r"content").toList
  | .table => (r"table").toList
  | .unpack => (r"unpack").toList
  | .cross => (r"cross").toList
  | .cascade => (r"cascade").toList
  | .rectify => (r"rectify").toList
  | _ => []

/-- Modelled from the spec: the glyph of each catalogued primitive. -/
def glyphOf : Primitive → Option Char
  | .identity => some '∘'
  | .gap => some '⋅'
  | .dip => some '⊙'
  | .fork => some '⊃'
  | .pop => some '◌'
  | .pi => some 'π'
  | .range => some '⇡'
  | .transpose => some '⍉'
  | .partition => some '⊜'
  | .reverse => some '⇌'
  | .shape => some '△'
  | .match' => some '≅'
  | .pick => some '⊡'
  | .reshape => some '↯'
  | .classify => some '⊛'
  | .ge => some '≥'
  | .content => some '◇'
  | .table => some '⊞'
  | _ => none

/-- Source `Primitive::deprecation_suggestion(..).is_some()`:
exactly `Unpack`, `Cross`, `Cascade` and `Rectify` are deprecated. -/
def Primitive.isDeprecated : Primitive → Bool
  | .unpack | .cross | .cascade | .rectify => true
  | _ => false

/-- Modelled from the spec: the slice of `Primitive::all()` whose
catalogue entries are modelled, in declaration order. -/
def catalogued : List Primitive :=
  [.identity, .gap, .dip, .fork, .pop, .pi, .range, .transpose,
   .partition, .reverse, .shape, .match', .pick, .reshape, .classify,
   .ge, .content, .table, .unpack, .cross, .cascade, .rectify]

/-- Source `Primitive::non_deprecated()`: the catalogue minus deprecated
entries. -/
def nonDeprecated : List Primitive :=
  catalogued.filter (fun p => !p.isDeprecated)

/-- The fixed alias table of `from_format_name`. -/
def aliasPrim (s : List Char) : Option Primitive :=
  if s = (r"id").toList then some .identity
  else if s = (r"ga").toList then some .gap
  else if s = (r"pi").toList then some .pi
  else if s = (r"ran").toList then some .range
  else if s = (r"tra").toList then some .transpose
  else if s = (r"par").toList then some .partition
  else none

/-- Rust `name.starts_with(query)` on character lists. -/
def startsWithChars : List Char → List Char → Bool
  | _, [] => true
  | [], _ :: _ => false
  | a :: as', b :: bs => a = b && startsWithChars as' bs

/-- Source filter `p.glyph().is_some_and(|u| !u.is_ascii())`. -/
def glyphNonAscii (p : Primitive) : Bool :=
  match glyphOf p with
  | some c => decide (128 ≤ c.toNat)
  | none => false

/-- Embedding of `Primitive::from_format_name` of `src/primitive/mod.rs`: reject
uppercase and short names, try the fixed aliases, then an exact
non-deprecated name, then (length at least 3) a prefix match among
non-deprecated primitives with a non-ASCII glyph, accepted when it is
exact or unique.  Rust's Unicode `char::is_uppercase` is modelled by
`Char.isUpper`; the catalogued names contain no uppercase characters, so
the difference never selects a primitive. -/
def fromFormatName (s : List Char) : Option Primitive :=
  if s.any Char.isUpper then none
  else if utf8Len s < 2 then none
  else match aliasPrim s with
  | some p => some p
  | none =>
    match nonDeprecated.find? (fun p => decide (nameOf p = s)) with
    | some p => some p
    | none =>
      if utf8Len s < 3 then none
      else
        match nonDeprecated.filter (fun p => glyphNonAscii p && startsWithChars (nameOf p) s) with
        | [] => none
        | res :: rest =>
            if nameOf res = s ∨ rest.isEmpty then some res else none

/-- The claim's description of `from_format_name`, phrased as the spec
words it: rejection of uppercase or short input, alias precedence, exact
non-deprecated match, then the unique prefix match among non-deprecated
primitives with non-ASCII glyph, or the exact-name match if several
match. -/
def fromFormatNameSpec (s : List Char) : Option Primitive :=
  if s.any Char.isUpper ∨ utf8Len s < 2 then none
  else match aliasPrim s with
  | some p => some p
  | none =>
    match nonDeprecated.find? (fun p => decide (nameOf p = s)) with
    | some p => some p
    | none =>
      if utf8Len s < 3 then none
      else
        match nonDeprecated.filter (fun p => glyphNonAscii p && startsWithChars (nameOf p) s) with
        | [q] => some q
        | ms => ms.find? (fun p => decide (nameOf p = s))

/-- Source chain `sub_name.strip_prefix('f').unwrap_or(sub_name)`. -/
def dropF : List Char → List Char
  | 'f' :: rest => rest
  | s => s

/-- Source call `t.strip_suffix(['i', 'p'])`. -/
def dropIP : List Char → Option (List Char)
  | s =>
    match s.getLast? with
    | some 'i' => some s.dropLast
    | some 'p' => some s.dropLast
    | _ => none

/-- The planet-notation condition exactly as the source writes it:
`sub_name.strip_prefix('f').unwrap_or(sub_name).strip_suffix(['i','p'])
.unwrap_or(sub_name).chars().all(|c| "gd".contains(c))`.  Note that the
second `unwrap_or` falls back to the original `sub_name`, not to the
prefix-stripped remainder. -/
def planetCond (s : List Char) : Bool :=
  (match dropIP (dropF s) with
   | some t => t
   | none => s).all (fun c => c == 'g' || c == 'd')

/-- The character-wise planet decomposition table of the source
(`f→Fork, g→Gap, d→Dip, i→Identity, p→Pop`); other characters cannot
reach the table (`unreachable!()` in the source), the final arm is the
dead default. -/
def planetPrim (c : Char) : Primitive :=
  if c = 'f' then .fork
  else if c = 'g' then .gap
  else if c = 'd' then .dip
  else if c = 'i' then .identity
  else if c = 'p' then .pop
  else .identity

/-- Push one `(primitive, one-character slice)` pair per character. -/
def decomposePlanet (s : List Char) : List (Primitive × List Char) :=
  s.map (fun c => (planetPrim c, [c]))

/-- The inner descending-length search of the forward scan of
`from_format_name_multi`: positions are character indices, the
`end_index - start_index < 2` guard is the byte length of the slice, and
a successful match consumes `len` positions (the last candidate length
reaches one past the final character index, as `indices` carries the
total byte length as an extra entry). -/
def tryLensFwd (s : List Char) (p : Nat) : Nat → Option (List (Primitive × List Char) × Nat)
  | 0 => none
  | 1 => none
  | m + 2 =>
      let len := m + 2
      let e := Nat.min (p + len) s.length
      let sub := (s.drop p).take (e - p)
      if utf8Len sub < 2 then tryLensFwd s p (m + 1)
      else match fromFormatName sub with
        | some q => some ([(q, sub)], p + len)
        | none =>
          if planetCond sub then some (decomposePlanet sub, p + len)
          else tryLensFwd s p (m + 1)

/-- The forward scan: succeed when the cursor reaches one past the last
character index (`start == indices.len()`), otherwise consume the first
matching candidate or fail.  The fuel only bounds the iteration count;
each iteration advances the cursor by at least 2, so the fuel passed by
`fromFormatNameMulti` never runs out. -/
def forwardLoop (s : List Char) : Nat → Nat → Option (List (Primitive × List Char))
  | 0, _ => none
  | fuel + 1, p =>
      if p = s.length + 1 then some []
      else match tryLensFwd s p (s.length + 1 - p) with
        | some (seg, p') => (forwardLoop s fuel p').map (fun rest => seg ++ rest)
        | none => none

/-- The inner descending-length search of the backward scan (candidate
lengths run from `end` down to 2; no byte guard and no planet rule). -/
def tryLensBwd (s : List Char) (e : Nat) : Nat → Option ((Primitive × List Char) × Nat)
  | 0 => none
  | 1 => none
  | m + 2 =>
      let len := m + 2
      let st := e - len
      let sub := (s.drop st).take (e - st)
      match fromFormatName sub with
      | some q => some ((q, sub), st)
      | none => tryLensBwd s e (m + 1)

/-- The backward scan: succeed when the cursor reaches the left end; the
result list is reversed at the end, modelled here by appending each newly
matched pair on the right. -/
def backwardLoop (s : List Char) : Nat → Nat → Option (List (Primitive × List Char))
  | 0, _ => none
  | fuel + 1, e =>
      if e = 0 then some []
      else match tryLensBwd s e e with
        | some (pr, e') => (backwardLoop s fuel e').map (fun front => front ++ [pr])
        | none => none

/-- Embedding of `Primitive::from_format_name_multi`: reject inputs of fewer than two
characters, then the forward scan, then the backward scan. -/
def fromFormatNameMulti (s : List Char) : Option (List (Primitive × List Char)) :=
  if s.length < 2 then none
  else match forwardLoop s (s.length + 2) 0 with
    | some l => some l
    | none => backwardLoop s (s.length + 2) s.length

/-- The primitive enumeration of the older engine `src/primitive.rs`,
in declaration order; `io` abstracts the `Io(IoOp)` variant. -/
inductive OldPrimitive where
  | dup | over | flip | pop | save | load
  | not | sign | neg | abs | sqrt | sin | cos | asin | acos
  | floor | ceil | round
  | eq | ne | lt | le | gt | ge
  | add | sub | mul | div | mod | pow | log | min | max | atan
  | len | rank | shape | range | first | last | fill | truncate
  | reverse | deshape | transpose | invTranspose | sort | grade
  | indices | classify | deduplicate
  | match' | noMatch | join | couple | pick | select | take | drop
  | reshape | rotate | windows | replicate | member | find | indexOf
  | group | partition
  | reduce | fold | scan | each | zip | rows | bridge | distribute
  | table | repeat | invert | under | level | try'
  | throw | break' | recur | debug | call | noop | string | parse | use'
  | pi | infinity
  | io (op : Nat)

/-- Embedding of `Primitive::inverse` of `src/primitive.rs`: the explicit inverse
table; every unlisted variant has no inverse. -/
def OldPrimitive.inverse : OldPrimitive → Option OldPrimitive
  | .flip => some .flip
  | .neg => some .neg
  | .not => some .not
  | .sin => some .asin
  | .cos => some .acos
  | .reverse => some .reverse
  | .save => some .load
  | .load => some .save
  | .transpose => some .invTranspose
  | .invTranspose => some .transpose
  | .debug => some .debug
  | _ => none

/-- The state of the older engine: a value stack and an anti-stack,
top at the head of each list. -/
structure OldEnv (α : Type) where
  stack : List α
  antistack : List α

/-- Modelled from the spec: `env.call()` of the older runtime pops the
top value as the function and runs it; `cb` maps a function value to its
effect, an updated state plus an optional error code, the mutated state
persisting on error as with `&mut Uiua`. -/
def oldCall (cb : α → OldEnv α → OldEnv α × Option Nat) (env : OldEnv α) :
    OldEnv α × Option Nat :=
  match env.stack with
  | [] => (env, some 0)
  | g :: s => cb g { env with stack := s }

/-- The `Primitive::Try` arm of `src/primitive.rs`: pop the body and the
handler values, snapshot both stack sizes, push the body back and call
it; on failure truncate both stacks to the snapshots, push the error
message and the handler, and call the handler.  The second component
instruments the run: when the body failed it records the two snapshots,
the state at the body's failure, and the caught state handed to the
message push (the state whose sizes the claim speaks about). -/
def oldTry (cb : α → OldEnv α → OldEnv α × Option Nat) (msgOf : Nat → α)
    (env0 : OldEnv α) :
    Except Nat (OldEnv α) × Option (Nat × Nat × OldEnv α × OldEnv α) :=
  match env0.stack with
  | f :: handler :: rest =>
      let env : OldEnv α := { env0 with stack := rest }
      let size := env.stack.length
      let antisize := env.antistack.length
      let env1 : OldEnv α := { env with stack := f :: env.stack }
      match oldCall cb env1 with
      | (env2, none) => (.ok env2, none)
      | (env2, some e) =>
          let caught : OldEnv α :=
            { stack := truncateTo size env2.stack,
              antistack := truncateTo antisize env2.antistack }
          let env3 : OldEnv α := { caught with stack := handler :: msgOf e :: caught.stack }
          match oldCall cb env3 with
          | (env4, none) => (.ok env4, some (size, antisize, env2, caught))
          | (_, some e2) => (.error e2, some (size, antisize, env2, caught))
  | _ => (.error 0, none)

/-- A concrete kernel bundle used by the witness evaluations. -/
def K0 : Kernels where
  eta := .num 0
  pi := .num 0
  tau := .num 0
  inf := .num 0
  not := fun _ => .ok (.num 0)
  neg := fun _ => .ok (.num 0)
  abs := fun _ => .ok (.num 0)
  sign := fun _ => .ok (.num 0)
  sqrt := fun _ => .ok (.num 0)
  sin := fun _ => .ok (.num 0)
  floor := fun _ => .ok (.num 0)
  ceil := fun _ => .ok (.num 0)
  round := fun _ => .ok (.num 0)
  isEq := fun _ _ => .ok (.num 0)
  isNe := fun _ _ => .ok (.num 0)
  isLt := fun _ _ => .ok (.num 0)
  isLe := fun _ _ => .ok (.num 0)
  isGt := fun _ _ => .ok (.num 0)
  isGe := fun _ _ => .ok (.num 0)
  add := fun _ _ => .ok (.num 0)
  sub := fun _ _ => .ok (.num 0)
  mul := fun _ _ => .ok (.num 0)
  div := fun _ _ => .ok (.num 0)
  modulus := fun _ _ => .ok (.num 0)
  pow := fun _ _ => .ok (.num 0)
  log := fun _ _ => .ok (.num 0)
  min := fun _ _ => .ok (.num 0)
  max := fun _ _ => .ok (.num 0)
  atan2 := fun _ _ => .ok (.num 0)
  complex := fun _ _ => .ok (.num 0)
  join := fun _ _ => .ok (.num 0)
  take := fun _ _ => .ok (.num 0)
  drop := fun _ _ => .ok (.num 0)
  couple := fun _ _ => .ok (.num 0)
  pick := fun _ _ => .ok (.num 0)
  keep := fun _ _ => .ok (.num 0)
  rotate := fun _ _ => .ok (.num 0)
  select := fun _ _ => .ok (.num 0)
  windows := fun _ _ => .ok (.num 0)
  member := fun _ _ => .ok (.num 0)
  find := fun _ _ => .ok (.num 0)
  indexOf := fun _ _ => .ok (.num 0)
  rise := fun _ => .ok (.num 0)
  fall := fun _ => .ok (.num 0)
  wher := fun _ => .ok (.num 0)
  parseNum := fun _ => .ok (.num 0)
  utf8 := fun _ => .ok (.num 0)
  range := fun _ => .ok (.num 0)
  bits := fun _ => .ok (.num 0)
  first := fun _ => .ok (.num 0)
  transpose := fun v => v
  reverse := fun v => v
  deshape := fun v => v
  fix := fun v => v
  deduplicate := fun v => v
  classify := fun v => v
  unique := fun v => v
  rowCount := fun v => v
  shapeOf := fun v => v
  reshape := fun _ _ => .ok (.num 0)
  rerank := fun _ _ => .ok (.num 0)
  insert := fun _ _ _ => .ok (.num 0)
  hasKey := fun _ _ => .ok (.num 0)
  get := fun _ _ => .ok (.num 0)
  remove := fun _ _ => .ok (.num 0)
  mapOp := fun _ _ => .ok (.num 0)
  random := fun _ => .num 0
  shuffleRows := fun _ v => v
  errValue := fun _ => .num 0

/-- A concrete base state for witness evaluations. -/
def baseEnv : Env where
  stack := []
  antistack := []
  functionStack := []
  memo := []
  fill := none
  rngCounter := 0
  nextTag := 0
  now := 0
  span := 0

/-- A concrete memoizable function for the witness evaluations: signature
`(1, 1)`, body replaces its argument by the number `7`. -/
def memoFn : Fn where
  id := 0
  args := 1
  outputs := 1
  body := fun s => (Value.num 7 :: s.drop 1, none)

/-- First-invocation state for the memo witness. -/
def memoEnv1 : Env := { baseEnv with stack := [.num 3], functionStack := [memoFn] }

/-- The state after the first memo invocation. -/
def memoEnv1' : Env := { baseEnv with stack := [.num 7], memo := [((0, [.num 3]), [.num 7])] }

/-- Second-invocation state for the memo witness: same argument on top,
different stack below, the memo table produced by the first call. -/
def memoEnv2 : Env :=
  { baseEnv with
      stack := [.num 3, .num 9]
      functionStack := [memoFn]
      memo := [((0, [.num 3]), [.num 7])] }

@[simp]
theorem exceptBindOk (a : α) (f : α → Except ε β) :
    (Except.ok a : Except ε α) >>= f = f a := rfl

@[simp]
theorem exceptBindErr (e : ε) (f : α → Except ε β) :
    (Except.error e : Except ε α) >>= f = Except.error e := rfl

theorem monadicEnv_len {f : Value → Except Err Value} {env env' : Env}
    (h : monadicEnv f env = .ok env') :
    env'.stack.length = env.stack.length := by
  cases hs : env.stack with
  | nil => simp [monadicEnv, Env.pop, hs] at h
  | cons v rest =>
      cases hf : f v with
      | error e => simp [monadicEnv, Env.pop, hs, hf] at h
      | ok r =>
          simp [monadicEnv, Env.pop, hs, hf] at h
          subst h
          simp [Env.push, hs]

theorem monadicRefEnv_len {f : Value → Except Err Value} {env env' : Env}
    (h : monadicRefEnv f env = .ok env') :
    env'.stack.length = env.stack.length := by
  cases hs : env.stack with
  | nil => simp [monadicRefEnv, Env.pop, hs] at h
  | cons v rest =>
      cases hf : f v with
      | error e => simp [monadicRefEnv, Env.pop, hs, hf] at h
      | ok r =>
          simp [monadicRefEnv, Env.pop, hs, hf] at h
          subst h
          simp [Env.push, hs]

theorem monadicRef_len {f : Value → Value} {env env' : Env}
    (h : monadicRef f env = .ok env') :
    env'.stack.length = env.stack.length := by
  cases hs : env.stack with
  | nil => simp [monadicRef, Env.pop, hs] at h
  | cons v rest =>
      simp [monadicRef, Env.pop, hs] at h
      subst h
      simp [Env.push, hs]

theorem monadicMut_len {f : Value → Value} {env env' : Env}
    (h : monadicMut f env = .ok env') :
    env'.stack.length = env.stack.length := by
  cases hs : env.stack with
  | nil => simp [monadicMut, Env.pop, hs] at h
  | cons v rest =>
      simp [monadicMut, Env.pop, hs] at h
      subst h
      simp [Env.push, hs]

theorem dyadicOO00Env_len {f : Value → Value → Except Err Value} {env env' : Env}
    (h : dyadicOO00Env f env = .ok env') :
    env'.stack.length + 1 = env.stack.length := by
  cases hs : env.stack with
  | nil => simp [dyadicOO00Env, Env.pop, hs] at h
  | cons a rest =>
      cases hr : rest with
      | nil => simp [dyadicOO00Env, Env.pop, hs, hr] at h
      | cons b rest2 =>
          cases hf : f a b with
          | error e => simp [dyadicOO00Env, Env.pop, hs, hr, hf] at h
          | ok r =>
              simp [dyadicOO00Env, Env.pop, hs, hr, hf] at h
              subst h
              simp [Env.push, hs, hr]

theorem dyadicOOEnv_len {f : Value → Value → Except Err Value} {env env' : Env}
    (h : dyadicOOEnv f env = .ok env') :
    env'.stack.length + 1 = env.stack.length := by
  cases hs : env.stack with
  | nil => simp [dyadicOOEnv, Env.pop, hs] at h
  | cons a rest =>
      cases hr : rest with
      | nil => simp [dyadicOOEnv, Env.pop, hs, hr] at h
      | cons b rest2 =>
          cases hf : f a b with
          | error e => simp [dyadicOOEnv, Env.pop, hs, hr, hf] at h
          | ok r =>
              simp [dyadicOOEnv, Env.pop, hs, hr, hf] at h
              subst h
              simp [Env.push, hs, hr]

theorem dyadicROEnv_len {f : Value → Value → Except Err Value} {env env' : Env}
    (h : dyadicROEnv f env = .ok env') :
    env'.stack.length + 1 = env.stack.length := by
  cases hs : env.stack with
  | nil => simp [dyadicROEnv, Env.pop, hs] at h
  | cons a rest =>
      cases hr : rest with
      | nil => simp [dyadicROEnv, Env.pop, hs, hr] at h
      | cons b rest2 =>
          cases hf : f a b with
          | error e => simp [dyadicROEnv, Env.pop, hs, hr, hf] at h
          | ok r =>
              simp [dyadicROEnv, Env.pop, hs, hr, hf] at h
              subst h
              simp [Env.push, hs, hr]

theorem dyadicRREnv_len {f : Value → Value → Except Err Value} {env env' : Env}
    (h : dyadicRREnv f env = .ok env') :
    env'.stack.length + 1 = env.stack.length := by
  cases hs : env.stack with
  | nil => simp [dyadicRREnv, Env.pop, hs] at h
  | cons a rest =>
      cases hr : rest with
      | nil => simp [dyadicRREnv, Env.pop, hs, hr] at h
      | cons b rest2 =>
          cases hf : f a b with
          | error e => simp [dyadicRREnv, Env.pop, hs, hr, hf] at h
          | ok r =>
              simp [dyadicRREnv, Env.pop, hs, hr, hf] at h
              subst h
              simp [Env.push, hs, hr]

theorem dyadicRR_len {f : Value → Value → Value} {env env' : Env}
    (h : dyadicRR f env = .ok env') :
    env'.stack.length + 1 = env.stack.length := by
  cases hs : env.stack with
  | nil => simp [dyadicRR, Env.pop, hs] at h
  | cons a rest =>
      cases hr : rest with
      | nil => simp [dyadicRR, Env.pop, hs, hr] at h
      | cons b rest2 =>
          simp [dyadicRR, Env.pop, hs, hr] at h
          subst h
          simp [Env.push, hs, hr]

theorem boxArm_len {env env' : Env} (h : boxArm env = .ok env') :
    env'.stack.length = env.stack.length := by
  cases hs : env.stack with
  | nil => simp [boxArm, Env.pop, hs] at h
  | cons v rest =>
      simp [boxArm, Env.pop, hs] at h
      subst h
      simp [Env.push, hs]

theorem reshapeLikeArm_len {k : Value → Value → Except Err Value} {env env' : Env}
    (h : reshapeLikeArm k env = .ok env') :
    env'.stack.length + 1 = env.stack.length := by
  cases hs : env.stack with
  | nil => simp [reshapeLikeArm, Env.pop, hs] at h
  | cons a rest =>
      cases hr : rest with
      | nil => simp [reshapeLikeArm, Env.pop, hs, hr] at h
      | cons b rest2 =>
          cases hf : k b a with
          | error e => simp [reshapeLikeArm, Env.pop, hs, hr, hf] at h
          | ok r =>
              simp [reshapeLikeArm, Env.pop, hs, hr, hf] at h
              subst h
              simp [Env.push, hs, hr]

theorem dupArm_len {env env' : Env} (h : dupArm env = .ok env') :
    env'.stack.length = env.stack.length + 1 := by
  cases hs : env.stack with
  | nil => simp [dupArm, Env.pop, hs] at h
  | cons v rest =>
      simp [dupArm, Env.pop, hs] at h
      subst h
      simp [Env.push, hs]

theorem flipArm_len {env env' : Env} (h : flipArm env = .ok env') :
    env'.stack.length = env.stack.length := by
  cases hs : env.stack with
  | nil => simp [flipArm, Env.pop, hs] at h
  | cons a rest =>
      cases hr : rest with
      | nil => simp [flipArm, Env.pop, hs, hr] at h
      | cons b rest2 =>
          simp [flipArm, Env.pop, hs, hr] at h
          subst h
          simp [Env.push, hs, hr]

theorem overArm_len {env env' : Env} (h : overArm env = .ok env') :
    env'.stack.length = env.stack.length + 1 := by
  cases hs : env.stack with
  | nil => simp [overArm, Env.pop, hs] at h
  | cons a rest =>
      cases hr : rest with
      | nil => simp [overArm, Env.pop, hs, hr] at h
      | cons b rest2 =>
          simp [overArm, Env.pop, hs, hr] at h
          subst h
          simp [Env.push, hs, hr]

theorem popArm_len {env env' : Env} (h : popArm env = .ok env') :
    env'.stack.length + 1 = env.stack.length := by
  cases hs : env.stack with
  | nil => simp [popArm, Env.pop, hs] at h
  | cons v rest =>
      simp [popArm, Env.pop, hs] at h
      subst h
      simp [hs]

theorem assertArm_len {env env' : Env} (h : assertArm env = .ok env') :
    env'.stack.length + 2 = env.stack.length := by
  cases hs : env.stack with
  | nil => simp [assertArm, Env.pop, hs] at h
  | cons a rest =>
      cases hr : rest with
      | nil => simp [assertArm, Env.pop, hs, hr] at h
      | cons b rest2 =>
          by_cases hb : b.asNat = some 1
          · simp [assertArm, Env.pop, hs, hr, hb] at h
            subst h
            simp [hs, hr]
          · simp [assertArm, Env.pop, hs, hr, hb] at h

theorem genArm_len {env env' : Env} (h : genArm env = .ok env') :
    env'.stack.length = env.stack.length + 1 := by
  cases hs : env.stack with
  | nil => simp [genArm, Env.pop, hs] at h
  | cons v rest =>
      cases hv : seedNum (r"Gen expects a number") v with
      | error e => simp [genArm, Env.pop, hs, hv] at h
      | ok q =>
          simp [genArm, Env.pop, hs, hv] at h
          subst h
          simp [Env.push, hs]

theorem dealArm_len {K : Kernels} {env env' : Env} (h : dealArm K env = .ok env') :
    env'.stack.length + 1 = env.stack.length := by
  cases hs : env.stack with
  | nil => simp [dealArm, Env.pop, hs] at h
  | cons v rest =>
      cases hv : seedNum (r"Deal expects a number") v with
      | error e => simp [dealArm, Env.pop, hs, hv] at h
      | ok q =>
          cases hr : rest with
          | nil => simp [dealArm, Env.pop, hs, hv, hr] at h
          | cons b rest2 =>
              simp [dealArm, Env.pop, hs, hv, hr] at h
              subst h
              simp [Env.push, hs, hr]

theorem tagArm_len {env env' : Env} (h : tagArm env = .ok env') :
    env'.stack.length = env.stack.length + 1 := by
  simp [tagArm] at h
  subst h
  simp [Env.push]

theorem typeArm_len {env env' : Env} (h : typeArm env = .ok env') :
    env'.stack.length = env.stack.length := by
  cases hs : env.stack with
  | nil => simp [typeArm, Env.pop, hs] at h
  | cons v rest =>
      simp [typeArm, Env.pop, hs] at h
      subst h
      simp [Env.push, hs]

theorem randArm_len {K : Kernels} {env env' : Env} (h : randArm K env = .ok env') :
    env'.stack.length = env.stack.length + 1 := by
  simp [randArm] at h
  subst h
  simp [Env.push]

theorem nowArm_len {env env' : Env} (h : nowArm env = .ok env') :
    env'.stack.length = env.stack.length + 1 := by
  simp [nowArm] at h
  subst h
  simp [Env.push]

theorem traceArm_len {env env' : Env} (h : traceArm env = .ok env') :
    env'.stack.length = env.stack.length := by
  cases hs : env.stack with
  | nil => simp [traceArm, Env.pop, hs] at h
  | cons v rest =>
      simp [traceArm, Env.pop, hs] at h
      subst h
      simp [Env.push, hs]

theorem insertArm_len {K : Kernels} {env env' : Env} (h : insertArm K env = .ok env') :
    env'.stack.length + 2 = env.stack.length := by
  cases hs : env.stack with
  | nil => simp [insertArm, Env.pop, hs] at h
  | cons a rest =>
      cases hr : rest with
      | nil => simp [insertArm, Env.pop, hs, hr] at h
      | cons b rest2 =>
          cases hr2 : rest2 with
          | nil => simp [insertArm, Env.pop, hs, hr, hr2] at h
          | cons c rest3 =>
              cases hf : K.insert a b c with
              | error e => simp [insertArm, Env.pop, hs, hr, hr2, hf] at h
              | ok r =>
                  simp [insertArm, Env.pop, hs, hr, hr2, hf] at h
                  subst h
                  simp [Env.push, hs, hr, hr2]

theorem mapLikeArm_len {k : Value → Value → Except Err Value} {env env' : Env}
    (h : mapLikeArm k env = .ok env') :
    env'.stack.length + 1 = env.stack.length := by
  cases hs : env.stack with
  | nil => simp [mapLikeArm, Env.pop, hs] at h
  | cons a rest =>
      cases hr : rest with
      | nil => simp [mapLikeArm, Env.pop, hs, hr] at h
      | cons b rest2 =>
          cases hf : k a b with
          | error e => simp [mapLikeArm, Env.pop, hs, hr, hf] at h
          | ok r =>
              simp [mapLikeArm, Env.pop, hs, hr, hf] at h
              subst h
              simp [Env.push, hs, hr]

set_option maxHeartbeats 2000000 in
/-- C1: stack conservation.  For every primitive whose declared signature
`(a, o)` is defined, a successful `runPrim` changes the value-stack size
by exactly `o - a` (stated additively), for every choice of the missing
value kernels. -/
theorem stackConservation (K : Kernels) (p : Primitive) (env env' : Env) (a o : Nat)
    (hsig : p.signature = some (a, o)) (hrun : runPrim K p env = .ok env') :
    env'.stack.length + a = env.stack.length + o := by
  cases p <;>
    first
    | exact Option.noConfusion hsig
    | (injection hsig with hpair; injection hpair with h1 h2; subst h1; subst h2;
       simp only [runPrim] at hrun;
       first
       | (injection hrun with he; subst he; simp [Env.push])
       | (have hl := monadicEnv_len hrun; omega)
       | (have hl := monadicRefEnv_len hrun; omega)
       | (have hl := monadicRef_len hrun; omega)
       | (have hl := monadicMut_len hrun; omega)
       | (have hl := dyadicOO00Env_len hrun; omega)
       | (have hl := dyadicOOEnv_len hrun; omega)
       | (have hl := dyadicROEnv_len hrun; omega)
       | (have hl := dyadicRREnv_len hrun; omega)
       | (have hl := dyadicRR_len hrun; omega)
       | (have hl := boxArm_len hrun; omega)
       | (have hl := reshapeLikeArm_len hrun; omega)
       | (have hl := dupArm_len hrun; omega)
       | (have hl := flipArm_len hrun; omega)
       | (have hl := overArm_len hrun; omega)
       | (have hl := popArm_len hrun; omega)
       | (have hl := assertArm_len hrun; omega)
       | (have hl := genArm_len hrun; omega)
       | (have hl := dealArm_len hrun; omega)
       | (have hl := tagArm_len hrun; omega)
       | (have hl := typeArm_len hrun; omega)
       | (have hl := randArm_len hrun; omega)
       | (have hl := nowArm_len hrun; omega)
       | (have hl := traceArm_len hrun; omega)
       | (have hl := insertArm_len hrun; omega)
       | (have hl := mapLikeArm_len hrun; omega))

/-- Witness for C1: `Dup` on a one-element stack has signature `(1, 2)`,
succeeds, and grows the stack by one. -/
theorem stackConservationWitness :
    Primitive.signature .dup = some (1, 2) ∧
    runPrim K0 .dup { baseEnv with stack := [.num 5] } =
      .ok { baseEnv with stack := [.num 5, .num 5] } ∧
    ({ baseEnv with stack := [.num 5, .num 5] } : Env).stack.length + 1 =
      ({ baseEnv with stack := [.num 5] } : Env).stack.length + 2 :=
  ⟨rfl, rfl,
    stackConservation K0 .dup { baseEnv with stack := [.num 5] }
      { baseEnv with stack := [.num 5, .num 5] } 1 2 rfl rfl⟩

/-- C5: `from_format_name` behaves exactly as the spec describes it:
uppercase and short rejection, alias precedence, exact non-deprecated
match, then (length at least 3) the unique non-ASCII-glyph prefix match,
with the exact-name fallback when several match. -/
theorem fromFormatNameSpecEquiv (s : List Char) :
    fromFormatName s = fromFormatNameSpec s := by
  unfold fromFormatName fromFormatNameSpec
  by_cases hu : s.any Char.isUpper
  · simp [hu]
  · by_cases h2 : utf8Len s < 2
    · simp [hu, h2]
    · simp only [hu, h2, Bool.false_eq_true, if_false, false_or, if_neg, not_false_iff]
      cases halias : aliasPrim s with
      | some p => simp [halias]
      | none =>
          simp only [halias]
          cases hfind : nonDeprecated.find? (fun p => decide (nameOf p = s)) with
          | some p => simp [hfind]
          | none =>
              simp only [hfind]
              by_cases h3 : utf8Len s < 3
              · simp [h3]
              · simp only [h3, if_false]
                have hne : ∀ p ∈ nonDeprecated, ¬ (nameOf p = s) := by
                  intro p hp
                  have := List.find?_eq_none.mp hfind p hp
                  simpa using this
                cases hm : nonDeprecated.filter
                    (fun p => glyphNonAscii p && startsWithChars (nameOf p) s) with
                | nil => simp [hm]
                | cons r t =>
                    have hrmem : r ∈ nonDeprecated.filter
                        (fun p => glyphNonAscii p && startsWithChars (nameOf p) s) := by
                      rw [hm]; exact List.mem_cons_self _ _
                    have hr : ¬ (nameOf r = s) := hne r (List.mem_filter.mp hrmem).1
                    cases t with
                    | nil => simp [hm, hr]
                    | cons b t2 =>
                        have hfind2 : (r :: b :: t2).find?
                            (fun p => decide (nameOf p = s)) = none := by
                          apply List.find?_eq_none.mpr
                          intro x hx
                          have hxmem : x ∈ nonDeprecated.filter
                              (fun p => glyphNonAscii p && startsWithChars (nameOf p) s) := by
                            rw [hm]; exact hx
                          simpa using hne x (List.mem_filter.mp hxmem).1
                        simp [hm, hr, hfind2]

theorem join_map_singleton (s : List Char) :
    (s.map (fun c => ([c] : List Char))).flatten = s := by
  induction s with
  | nil => rfl
  | cons c t ih => simp [ih]

theorem decomposePlanet_join (s : List Char) :
    ((decomposePlanet s).map Prod.snd).flatten = s := by
  unfold decomposePlanet
  rw [List.map_map]
  exact join_map_singleton s

theorem utf8Len_ge_two_ne_nil {s : List Char} (h : ¬ utf8Len s < 2) : s ≠ [] := by
  intro hnil
  subst hnil
  simp [utf8Len] at h

theorem tryLensFwd_sound (s : List Char) (p : Nat) :
    ∀ len seg p', tryLensFwd s p len = some (seg, p') →
      p + 2 ≤ p' ∧ p' ≤ p + len ∧ seg ≠ [] ∧
      ((seg.map Prod.snd).flatten =
        (s.drop p).take (Nat.min p' s.length - p)) := by
  intro len
  induction len using Nat.strong_induction_on with
  | _ len ih =>
    match len with
    | 0 => intro seg p' h; simp [tryLensFwd] at h
    | 1 => intro seg p' h; simp [tryLensFwd] at h
    | m + 2 =>
        intro seg p' h
        simp only [tryLensFwd] at h
        split at h
        · have := ih (m + 1) (by omega) seg p' h
          exact ⟨this.1, by omega, this.2.2.1, this.2.2.2⟩
        · split at h
          · injection h with h1
            injection h1 with hseg hp
            subst hseg; subst hp
            refine ⟨by omega, by omega, by simp, ?_⟩
            simp
          · split at h
            · injection h with h1
              injection h1 with hseg hp
              subst hseg; subst hp
              refine ⟨by omega, by omega, ?_, ?_⟩
              · have hne := utf8Len_ge_two_ne_nil (by assumption)
                simpa [decomposePlanet] using hne
              · rw [decomposePlanet_join]
            · have := ih (m + 1) (by omega) seg p' h
              exact ⟨this.1, by omega, this.2.2.1, this.2.2.2⟩

theorem forwardLoop_sound (s : List Char) :
    ∀ fuel p l, p ≤ s.length + 1 → forwardLoop s fuel p = some l →
      (l.map Prod.snd).flatten = s.drop p ∧ (p < s.length + 1 → l ≠ []) := by
  intro fuel
  induction fuel with
  | zero => intro p l _ h; simp [forwardLoop] at h
  | succ fuel ih =>
      intro p l hp h
      simp only [forwardLoop] at h
      split at h
      · injection h with hl
        subst hl
        rename_i hpe
        constructor
        · rw [hpe]
          rw [List.drop_eq_nil_of_le (by omega)]
          simp
        · intro hlt; omega
      · split at h
        · rename_i seg p2 hseg
          cases hrec : forwardLoop s fuel p2 with
          | none => rw [hrec] at h; exact Option.noConfusion h
          | some rest =>
              rw [hrec] at h
              simp only [Option.map] at h
              injection h with hl
              subst hl
              obtain ⟨hp2a, hp2b, hne, hcov⟩ := tryLensFwd_sound s p _ seg p2 hseg
              have hp2c : p2 ≤ s.length + 1 := by omega
              obtain ⟨hrest, _⟩ := ih p2 rest hp2c hrec
              constructor
              · rw [List.map_append, List.flatten_append, hcov, hrest]
                rcases Nat.lt_or_ge s.length p2 with hgt | hle
                · have hmin : Nat.min p2 s.length = s.length :=
                    Nat.min_eq_right (Nat.le_of_lt hgt)
                  rw [hmin]
                  have hdrop2 : s.drop p2 = [] := List.drop_eq_nil_of_le (by omega)
                  rw [hdrop2]
                  have hlen : (s.drop p).length = s.length - p := by simp
                  have htake : (s.drop p).take (s.length - p) = s.drop p := by
                    apply List.take_of_length_le
                    omega
                  rw [htake, List.append_nil]
                · have hmin : Nat.min p2 s.length = p2 := Nat.min_eq_left hle
                  rw [hmin]
                  have hdd : s.drop p2 = (s.drop p).drop (p2 - p) := by
                    rw [List.drop_drop]
                    congr 1
                    omega
                  rw [hdd]
                  exact List.take_append_drop _ _
              · intro _
                simp [hne]
        · exact absurd h (by simp)

theorem tryLensBwd_sound (s : List Char) (e : Nat) :
    ∀ len pr st, tryLensBwd s e len = some (pr, st) →
      st ≤ e ∧ pr.2 = (s.drop st).take (e - st) := by
  intro len
  induction len using Nat.strong_induction_on with
  | _ len ih =>
    match len with
    | 0 => intro pr st h; simp [tryLensBwd] at h
    | 1 => intro pr st h; simp [tryLensBwd] at h
    | m + 2 =>
        intro pr st h
        simp only [tryLensBwd] at h
        split at h
        · injection h with h1
          injection h1 with hpr hst
          subst hpr; subst hst
          exact ⟨by omega, rfl⟩
        · exact ih (m + 1) (by omega) pr st h

theorem backwardLoop_sound (s : List Char) :
    ∀ fuel e l, backwardLoop s fuel e = some l →
      (l.map Prod.snd).flatten = s.take e ∧ (0 < e → l ≠ []) := by
  intro fuel
  induction fuel with
  | zero => intro e l h; simp [backwardLoop] at h
  | succ fuel ih =>
      intro e l h
      simp only [backwardLoop] at h
      split at h
      · injection h with hl
        subst hl
        rename_i hze
        subst hze
        exact ⟨by simp, by omega⟩
      · split at h
        · rename_i pr e2 hpr
          cases hrec : backwardLoop s fuel e2 with
          | none => rw [hrec] at h; exact Option.noConfusion h
          | some front =>
              rw [hrec] at h
              simp only [Option.map] at h
              injection h with hl
              subst hl
              obtain ⟨hse, hsub⟩ := tryLensBwd_sound s e _ pr e2 hpr
              obtain ⟨hfront, _⟩ := ih e2 front hrec
              constructor
              · rw [List.map_append, List.flatten_append, hfront]
                simp only [List.map_cons, List.map_nil, List.flatten_cons,
                  List.flatten_nil, List.append_nil]
                rw [hsub]
                have htake : s.take e = s.take e2 ++ (s.drop e2).take (e - e2) := by
                  conv_lhs => rw [show e = e2 + (e - e2) from by omega]
                  rw [List.take_add]
                rw [htake]
              · intro _
                simp
        · exact absurd h (by simp)

/-- C10: whenever `from_format_name_multi` succeeds, the result list is
non-empty and the returned source slices concatenate, in order, to
exactly the whole input (no gaps, no overlaps); inputs of fewer than two
characters are rejected. -/
theorem multiCoverage (s : List Char) :
    (∀ l, fromFormatNameMulti s = some l →
        l ≠ [] ∧ (l.map Prod.snd).flatten = s) ∧
    (s.length < 2 → fromFormatNameMulti s = none) := by
  constructor
  · intro l h
    unfold fromFormatNameMulti at h
    split at h
    · exact Option.noConfusion h
    · rename_i hlen2
      split at h
      · rename_i l2 hfwd
        injection h with hl
        subst hl
        obtain ⟨hcov, hne⟩ := forwardLoop_sound s (s.length + 2) 0 l2 (by omega) hfwd
        exact ⟨hne (by omega), by simpa using hcov⟩
      · obtain ⟨hcov, hne⟩ := backwardLoop_sound s (s.length + 2) s.length l h
        exact ⟨hne (by omega), by simpa using hcov⟩
  · intro hlen
    unfold fromFormatNameMulti
    simp [hlen]

/-- Witness for C10: the planet word `gd` parses to a non-empty list
whose slices concatenate to the input. -/
theorem multiCoverageWitness :
    fromFormatNameMulti [ 'g', 'd' ] =
      some [(Primitive.gap, [ 'g' ]), (Primitive.dip, [ 'd' ])] ∧
    [(Primitive.gap, [ 'g' ]), (Primitive.dip, [ 'd' ])] ≠
      ([] : List (Primitive × List Char)) ∧
    (([(Primitive.gap, [ 'g' ]), (Primitive.dip, [ 'd' ])].map Prod.snd).flatten =
      [ 'g', 'd' ]) :=
  ⟨rfl, ((multiCoverage [ 'g', 'd' ]).1 _ rfl).1, ((multiCoverage [ 'g', 'd' ]).1 _ rfl).2⟩

/-- C2 counterexample: the claim says `from_format_name_multi "fgd"`
returns `[Fork, Gap, Dip]`; the code returns `None`, because the planet
check's suffix `unwrap_or` falls back to the whole substring, so an `f`
prefix is only recognised together with an `i` or `p` suffix. -/
theorem planetFgdCounterexample :
    fromFormatNameMulti [ 'f', 'g', 'd' ] = none := rfl

/-- C2 amended: the planet rule fires on a scanned substring exactly when
the source chain accepts it, which recognises an `f` prefix only together
with an `i`/`p` suffix; `"gdi"` decomposes to `[Gap, Dip, Identity]`,
`"fgdi"` to `[Fork, Gap, Dip, Identity]`, and `"fgd"` is rejected. -/
theorem planetNotationAmended :
    fromFormatNameMulti [ 'g', 'd', 'i' ] =
      some [(Primitive.gap, [ 'g' ]), (Primitive.dip, [ 'd' ]),
            (Primitive.identity, [ 'i' ])] ∧
    fromFormatNameMulti [ 'f', 'g', 'd', 'i' ] =
      some [(Primitive.fork, [ 'f' ]), (Primitive.gap, [ 'g' ]),
            (Primitive.dip, [ 'd' ]), (Primitive.identity, [ 'i' ])] ∧
    fromFormatNameMulti [ 'f', 'g', 'd' ] = none ∧
    planetCond [ 'g', 'd', 'i' ] = true ∧
    planetCond [ 'f', 'g', 'd', 'i' ] = true ∧
    planetCond [ 'f', 'g', 'd' ] = false :=
  ⟨rfl, rfl, rfl, rfl, rfl, rfl⟩

/-- C3 counterexample: `inverse` is not an involution on its domain:
`inverse Sin = Asin`, but `Asin` is not in the table at all, so
`inverse (inverse Sin)` is undefined rather than `Sin`. -/
theorem inverseInvolutionCounterexample :
    OldPrimitive.inverse .sin = some .asin ∧
    OldPrimitive.inverse .asin = none :=
  ⟨rfl, rfl⟩

/-- C3 amended: for every primitive in the inverse table other than
`Sin` and `Cos` (whose inverses `Asin`/`Acos` are outside the table),
the inverse of the inverse is defined and equals the original. -/
theorem inverseInvolutionAmended (p q : OldPrimitive)
    (hs : p ≠ .sin) (hc : p ≠ .cos)
    (h : OldPrimitive.inverse p = some q) :
    OldPrimitive.inverse q = some p := by
  cases p <;>
    first
    | exact Option.noConfusion h
    | exact absurd rfl hs
    | exact absurd rfl hc
    | (injection h with hq; subst hq; rfl)

/-- Witness for C3: `Flip` is self-inverse through the amended theorem. -/
theorem inverseInvolutionWitness :
    OldPrimitive.inverse .flip = some .flip :=
  inverseInvolutionAmended .flip .flip
    (fun hcon => OldPrimitive.noConfusion hcon)
    (fun hcon => OldPrimitive.noConfusion hcon) rfl

theorem truncateTo_len (n : Nat) (l : List α) :
    (truncateTo n l).length = Nat.min n l.length := by
  simp only [truncateTo, List.length_drop, Nat.min_def]
  split <;> omega

/-- C4 counterexample: with the pre-call stack `[5, 6]` (after the body
`9` and handler `8` are popped) and a body that pops both values before
failing, the catch truncation cannot restore anything: the caught stack
is empty, not of the pre-call size 2.  This is the stack effect of
`Try(Throw, handler)` applied to a false condition. -/
theorem tryAtomicityCounterexample :
    (oldTry
      (fun g env =>
        if g = 9 then ({ env with stack := env.stack.drop 2 }, some 7)
        else (env, none))
      (fun e => e) ⟨[9, 8, 5, 6], []⟩).2 =
      some (2, 0, (⟨[], []⟩ : OldEnv Nat), (⟨[], []⟩ : OldEnv Nat)) ∧
    (⟨[], []⟩ : OldEnv Nat).stack.length ≠ 2 :=
  ⟨rfl, by decide⟩

/-- C4 amended: when the body of `Try` fails, the caught stack sizes are
the pre-call sizes truncated by the failure state: each equals the
minimum of the snapshot and the size at failure, so they equal the
pre-call values exactly when the failing body did not shrink the stacks
below them. -/
theorem tryAtomicityAmended {α : Type} (cb : α → OldEnv α → OldEnv α × Option Nat)
    (msgOf : Nat → α) (env0 : OldEnv α) (f handler : α) (rest : List α)
    (sz asz : Nat) (fail caught : OldEnv α)
    (hstack : env0.stack = f :: handler :: rest)
    (htrace : (oldTry cb msgOf env0).2 = some (sz, asz, fail, caught)) :
    sz = rest.length ∧ asz = env0.antistack.length ∧
    caught.stack.length = Nat.min sz fail.stack.length ∧
    caught.antistack.length = Nat.min asz fail.antistack.length ∧
    (rest.length ≤ fail.stack.length → caught.stack.length = rest.length) := by
  obtain ⟨st0, anti0⟩ := env0
  simp only at hstack
  subst hstack
  simp only [oldTry] at htrace
  split at htrace
  · simp at htrace
  · split at htrace <;>
      (simp only [Option.some.injEq, Prod.mk.injEq] at htrace
       obtain ⟨h1, h2, h3, h4⟩ := htrace
       subst h1; subst h2; subst h3; subst h4
       refine ⟨rfl, rfl, truncateTo_len _ _, truncateTo_len _ _, ?_⟩
       intro hle
       rw [truncateTo_len]
       simp only [Nat.min_def]
       split <;> omega)

/-- Witness for C4: a failing body that only pushed leaves the stacks at
least as large as the snapshots, so the catch restores the pre-call
sizes exactly. -/
theorem tryAtomicityWitness :
    ((⟨[5, 6], []⟩ : OldEnv Nat)).stack.length = ([5, 6] : List Nat).length :=
  (tryAtomicityAmended
      (fun g env =>
        if g = 9 then ({ env with stack := 1 :: env.stack }, some 7)
        else (env, none))
      (fun e => e) ⟨[9, 8, 5, 6], []⟩ 9 8 [5, 6] 2 0
      ⟨[1, 5, 6], []⟩ ⟨[5, 6], []⟩ rfl rfl).2.2.2.2 (by decide)

theorem asNat_eq_one_iff (v : Value) : Value.asNat v = some 1 ↔ v = Value.num 1 := by
  cases v with
  | num q =>
      simp only [Value.asNat, Value.num.injEq]
      constructor
      · intro h
        split at h
        · rename_i hcond
          obtain ⟨hden, hpos⟩ := hcond
          injection h with h1
          have hnum : q.num = 1 := by omega
          exact Rat.ext (by rw [hnum]; rfl) (by rw [hden]; rfl)
        · exact Option.noConfusion h
      · intro h
        subst h
        norm_num
  | chr c => simp [Value.asNat]
  | box w => simp [Value.asNat]

theorem assertArm_eq (env : Env) (msg cond : Value) (rest : List Value)
    (hstack : env.stack = msg :: cond :: rest) :
    assertArm env =
      if Value.asNat cond = some 1 then .ok { env with stack := rest }
      else .error (.throw msg env.span) := by
  simp only [assertArm, Env.pop, hstack]
  rfl

/-- C6: `Assert` pops the message, then the condition; it succeeds (and
pushes nothing, leaving exactly the remaining stack) precisely when the
condition is the natural `1`, and otherwise fails with
`Throw(msg, span)`. -/
theorem assertThrowIff (K : Kernels) (env : Env) (msg cond : Value) (rest : List Value)
    (hstack : env.stack = msg :: cond :: rest) :
    (runPrim K .assert env = .ok { env with stack := rest } ↔ cond = .num 1) ∧
    (cond ≠ .num 1 → runPrim K .assert env = .error (.throw msg env.span)) := by
  have harm : runPrim K .assert env = assertArm env := rfl
  rw [harm, assertArm_eq env msg cond rest hstack]
  constructor
  · constructor
    · intro h
      by_cases hc : Value.asNat cond = some 1
      · exact (asNat_eq_one_iff cond).mp hc
      · rw [if_neg hc] at h
        exact Except.noConfusion h
    · intro h
      subst h
      rw [if_pos ((asNat_eq_one_iff _).mpr rfl)]
  · intro h
    rw [if_neg (fun hc => h ((asNat_eq_one_iff cond).mp hc))]

/-- Witness for C6: asserting with condition `1` pops both values and
succeeds. -/
theorem assertThrowWitness :
    runPrim K0 .assert { baseEnv with stack := [.chr 'm', .num 1, .num 9] } =
      .ok { baseEnv with stack := [.num 9] } :=
  (assertThrowIff K0 { baseEnv with stack := [.chr 'm', .num 1, .num 9] }
    (.chr 'm') (.num 1) [.num 9] rfl).1.mpr rfl

/-- C7 counterexample: the non-inlined modifiers do always error, but not
with the message the claim states: `Un` reports the legacy name `Invert`,
and every message reads `<name> was not inlined. This is a bug in the
interpreter`, not `internal error: <name> was not inlined`. -/
theorem notInlinedCounterexample :
    runPrim K0 .un baseEnv = .error (.run unMsg) ∧
    unMsg ≠ (r"internal error: un was not inlined") ∧
    unMsg ≠ (r"internal error: Un was not inlined") ∧
    dipMsg ≠ (r"internal error: dip was not inlined") ∧
    dipMsg ≠ (r"internal error: Dip was not inlined") :=
  ⟨rfl, by decide, by decide, by decide, by decide⟩

/-- C7 amended: each of the ten compile-time-only modifiers always
returns an error at runtime, for every state and every kernel choice
(so no stack effect is executed), with the exact source message
`<name> was not inlined. This is a bug in the interpreter`, where the
name is the variant name except `Un`, which reports `Invert`. -/
theorem notInlinedAmended (K : Kernels) (env : Env) :
    runPrim K .dip env = .error (.run dipMsg) ∧
    runPrim K .gap env = .error (.run gapMsg) ∧
    runPrim K .un env = .error (.run unMsg) ∧
    runPrim K .under env = .error (.run underMsg) ∧
    runPrim K .bind env = .error (.run bindMsg) ∧
    runPrim K .both env = .error (.run bothMsg) ∧
    runPrim K .fork env = .error (.run forkMsg) ∧
    runPrim K .cascade env = .error (.run cascadeMsg) ∧
    runPrim K .bracket env = .error (.run bracketMsg) ∧
    runPrim K .comptime env = .error (.run comptimeMsg) :=
  ⟨rfl, rfl, rfl, rfl, rfl, rfl, rfl, rfl, rfl, rfl⟩

theorem popN_take_drop : ∀ (n : Nat) (s : List Value), n ≤ s.length →
    popN n s = some (s.take n, s.drop n) := by
  intro n
  induction n with
  | zero => intro s h; simp [popN]
  | succ n ih =>
      intro s h
      cases s with
      | nil => simp at h
      | cons v t => simp [popN, ih t (by simpa using h)]

theorem pushList_eq (vs : List Value) : ∀ s, pushList vs s = vs.reverse ++ s := by
  induction vs with
  | nil => intro s; rfl
  | cons v t ih =>
      intro s
      have hstep : pushList (v :: t) s = pushList t (v :: s) := rfl
      rw [hstep, ih]
      simp

theorem pushList_reverse_restore (l s : List Value) :
    pushList l.reverse s = l ++ s := by
  rw [pushList_eq]
  simp

theorem cloneStackTop_pushList (vs s : List Value) :
    cloneStackTop vs.length (pushList vs s) = vs := by
  rw [pushList_eq]
  unfold cloneStackTop
  rw [show vs.length = vs.reverse.length from (List.length_reverse _).symm]
  rw [List.take_left]
  simp

theorem memoLookup_insert_self (m : List ((Nat × List Value) × List Value))
    (id : Nat) (args outs : List Value) :
    memoLookup (memoInsert m id args outs) id args = some outs := by
  simp [memoInsert, memoLookup]

theorem runMemoI_eq (env : Env) (f : Fn) (fs : List Fn)
    (hf : env.functionStack = f :: fs)
    (hL : f.args ≤ env.stack.length) :
    runMemoI env =
      match memoLookup env.memo f.id (env.stack.take f.args) with
      | some outs =>
          .ok ({ env with
                  functionStack := fs
                  stack := pushList outs (env.stack.drop f.args) }, false)
      | none =>
          match f.body env.stack with
          | (_, some e) => .error e
          | (s, none) =>
              .ok ({ env with
                      functionStack := fs
                      stack := s
                      memo := memoInsert env.memo f.id (env.stack.take f.args)
                        (cloneStackTop f.outputs s) }, true) := by
  unfold runMemoI
  simp only [Env.popFunction, hf, exceptBindOk]
  rw [popN_take_drop f.args env.stack hL]
  cases hm : memoLookup env.memo f.id (env.stack.take f.args) with
  | some outs => simp [hm]
  | none =>
      simp only [hm]
      rw [pushList_reverse_restore, List.take_append_drop]

/-- C8: memoization.  A first `Memo f` invocation on arguments `A` not
yet in the table runs `f` (the flag is `true`) and stores its outputs; a
second invocation with equal arguments and the resulting table does not
re-enter `f` (the flag is `false`) and leaves outputs equal to the first
invocation's on top of the stack. -/
theorem memoSecondInvocation
    (env1 env2 r1 : Env) (f : Fn) (fs1 fs2 : List Fn) (A : List Value) (b1 : Bool)
    (hf1 : env1.functionStack = f :: fs1)
    (hf2 : env2.functionStack = f :: fs2)
    (hA1 : env1.stack.take f.args = A)
    (hL1 : f.args ≤ env1.stack.length)
    (hmiss : memoLookup env1.memo f.id A = none)
    (h1 : runMemoI env1 = .ok (r1, b1))
    (hA2 : env2.stack.take f.args = A)
    (hL2 : f.args ≤ env2.stack.length)
    (hmemo2 : env2.memo = r1.memo)
    (houts : f.outputs ≤ r1.stack.length) :
    b1 = true ∧
    ∃ r2, runMemoI env2 = .ok (r2, false) ∧
      cloneStackTop f.outputs r2.stack = cloneStackTop f.outputs r1.stack := by
  rw [runMemoI_eq env1 f fs1 hf1 hL1, hA1, hmiss] at h1
  rcases hb : f.body env1.stack with ⟨s1, eo⟩
  rw [hb] at h1
  cases eo with
  | some e => exact absurd h1 (by simp)
  | none =>
      simp only [Except.ok.injEq, Prod.mk.injEq] at h1
      obtain ⟨hr1, hb1⟩ := h1
      subst hr1
      subst hb1
      refine ⟨rfl, ?_⟩
      simp only at houts
      rw [runMemoI_eq env2 f fs2 hf2 hL2, hA2, hmemo2]
      simp only [memoLookup_insert_self]
      refine ⟨_, rfl, ?_⟩
      simp only
      have hstored : (cloneStackTop f.outputs s1).length = f.outputs := by
        simp only [cloneStackTop, List.length_reverse, List.length_take, Nat.min_def]
        split <;> omega
      generalize hst : cloneStackTop f.outputs s1 = stored
      rw [hst] at hstored
      rw [← hstored]
      exact cloneStackTop_pushList _ _

/-- Witness for C8: a concrete `(1,1)` function, memoized on the
argument `3`: the first invocation enters the body and stores `7`, the
second pushes the stored `7` without entering the body. -/
theorem memoSecondInvocationWitness :
    memoLookup memoEnv1.memo 0 [Value.num 3] = none ∧
    runMemoI memoEnv1 = .ok (memoEnv1', true) ∧
    (∃ r2, runMemoI memoEnv2 = .ok (r2, false) ∧
      cloneStackTop memoFn.outputs r2.stack =
        cloneStackTop memoFn.outputs memoEnv1'.stack) :=
  ⟨rfl, rfl,
    (memoSecondInvocation memoEnv1 memoEnv2 memoEnv1' memoFn [] [] [Value.num 3] true
      rfl rfl rfl (by decide) rfl rfl rfl (by decide) rfl (by decide)).2⟩

theorem xoshiroNext_fst_lt (s : Nat × Nat × Nat × Nat) :
    (xoshiroNext s).1 < 2 ^ 64 := by
  rcases s with ⟨s0, s1, s2, s3⟩
  exact Nat.mod_lt _ (by norm_num)

theorem standardF64_range (u : Nat) (hu : u < 2 ^ 64) :
    0 ≤ standardF64 u ∧ standardF64 u < 1 := by
  unfold standardF64
  constructor
  · positivity
  · rw [div_lt_one (by positivity)]
    have hm : (u >>> 11) < 2 ^ 53 := by
      rw [Nat.shiftRight_eq_div_pow]
      rw [Nat.div_lt_iff_lt_mul (by norm_num)]
      calc u < 2 ^ 64 := hu
        _ = 2 ^ 53 * 2 ^ 11 := by norm_num
    exact_mod_cast hm

/-- C9: `Gen` is deterministic in its popped seed and its sampled value
lies in `[0,1)`: two runs popping equal numeric seeds, from arbitrary
states and arbitrary kernels, push one identical pair
(value `x` with `0 ≤ x < 1`, then the next seed). -/
theorem genDeterministicRange (K K' : Kernels) (env env' : Env) (q : ℚ)
    (r r' : List Value)
    (h1 : env.stack = Value.num q :: r) (h2 : env'.stack = Value.num q :: r') :
    ∃ x ns : ℚ, 0 ≤ x ∧ x < 1 ∧
      runPrim K .gen env = .ok { env with stack := .num ns :: .num x :: r } ∧
      runPrim K' .gen env' = .ok { env' with stack := .num ns :: .num x :: r' } := by
  obtain ⟨st, anti, fns, memo, fl, rng, tag, nw, sp⟩ := env
  obtain ⟨st', anti', fns', memo', fl', rng', tag', nw', sp'⟩ := env'
  simp only at h1 h2
  subst h1
  subst h2
  obtain ⟨hx0, hx1⟩ := standardF64_range
    (xoshiroNext (xoshiroFromSeed (f64Bits q))).1
    (xoshiroNext_fst_lt _)
  exact ⟨_, _, hx0, hx1, rfl, rfl⟩

/-- Witness for C9: two runs popping the seed `0` from different stacks
push the same pair, whose value component lies in `[0,1)`. -/
theorem genWitness :
    ∃ x ns : ℚ, 0 ≤ x ∧ x < 1 ∧
      runPrim K0 .gen { baseEnv with stack := [.num 0] } =
        .ok { baseEnv with stack := [.num ns, .num x] } ∧
      runPrim K0 .gen { baseEnv with stack := [.num 0, .num 4] } =
        .ok { baseEnv with stack := [.num ns, .num x, .num 4] } :=
  genDeterministicRange K0 K0 { baseEnv with stack := [.num 0] }
    { baseEnv with stack := [.num 0, .num 4] } 0 [] [.num 4] rfl rfl

theorem tryLensBwd_bound (s : List Char) (e : Nat) :
    ∀ len pr st, len ≤ e → tryLensBwd s e len = some (pr, st) →
      st + 2 ≤ e := by
  intro len
  induction len using Nat.strong_induction_on with
  | _ len ih =>
    match len with
    | 0 => intro pr st _ h; simp [tryLensBwd] at h
    | 1 => intro pr st _ h; simp [tryLensBwd] at h
    | m + 2 =>
        intro pr st hle h
        simp only [tryLensBwd] at h
        split at h
        · injection h with h1
          injection h1 with hpr hst
          subst hst
          omega
        · exact ih (m + 1) (by omega) pr st (by omega) h

theorem forwardLoop_agree (s : List Char) :
    ∀ f1 f2 p, s.length + 1 - p < f1 → s.length + 1 - p < f2 →
      forwardLoop s f1 p = forwardLoop s f2 p := by
  intro f1
  induction f1 with
  | zero => intro f2 p h1 _; omega
  | succ f1 ih =>
      intro f2 p h1 h2
      cases f2 with
      | zero => omega
      | succ f2 =>
          simp only [forwardLoop]
          split
          · rfl
          · rename_i hne
            cases htl : tryLensFwd s p (s.length + 1 - p) with
            | none => rfl
            | some segp =>
                rcases segp with ⟨seg, p2⟩
                dsimp only
                obtain ⟨ha, hb, _, _⟩ := tryLensFwd_sound s p _ seg p2 htl
                rw [ih f2 p2 (by omega) (by omega)]

theorem backwardLoop_agree (s : List Char) :
    ∀ f1 f2 e, e < f1 → e < f2 →
      backwardLoop s f1 e = backwardLoop s f2 e := by
  intro f1
  induction f1 with
  | zero => intro f2 e h1 _; omega
  | succ f1 ih =>
      intro f2 e h1 h2
      cases f2 with
      | zero => omega
      | succ f2 =>
          simp only [backwardLoop]
          split
          · rfl
          · rename_i hne
            cases htl : tryLensBwd s e e with
            | none => rfl
            | some pre2 =>
                rcases pre2 with ⟨pr, e2⟩
                dsimp only
                have hb := tryLensBwd_bound s e e pr e2 (Nat.le_refl e) htl
                rw [ih f2 e2 (by omega) (by omega)]

/-- Fuel irrelevance: with any fuel exceeding the character count plus
one, the two scan loops compute the same result as the fuel passed by
`fromFormatNameMulti`, so the fueled embedding computes the result of
the unfueled source loops (each iteration advances the cursor by at
least two positions). -/
theorem fromFormatNameMulti_fuel_stable (s : List Char) (f : Nat)
    (hf : s.length + 1 < f) :
    (if s.length < 2 then none
     else match forwardLoop s f 0 with
       | some l => some l
       | none => backwardLoop s f s.length) = fromFormatNameMulti s := by
  unfold fromFormatNameMulti
  split
  · rfl
  · rw [forwardLoop_agree s f (s.length + 2) 0 (by omega) (by omega),
       backwardLoop_agree s f (s.length + 2) s.length (by omega) (by omega)]
